import Mathlib

/-!
Shallow embedding in Lean 4 of the citation-to-highlight pipeline of
`app.py` (a Flask application that parses line citations such as
`(doc.pdf, Lines 5-7)` out of chat text and injects highlight
annotations into the cited PDF), together with theorems checking the
natural-language specification against the embedded code.

Conventions of the embedding:
* Python strings are `String` / `List Char`; the regular-expression
  scans of `re.findall` / `re.search` are embedded as explicit
  character-level scanners for the two concrete patterns the code uses
  (digits are the ASCII digits `0`-`9`).
* Python floats are embedded as `ℚ` (only `min` / `max` and list
  packing are performed on them, so exactness is irrelevant).
* Fallible Python code (an unpacking that can raise `ValueError`, the
  `try`/`except` of the endpoint) is embedded with `Except`.
* The external blob-store fetch of `requests.get` is an oracle
  parameter `fetch : Option String → Nat × List Page` returning an
  HTTP status code and, abstractly, the decoded pages of the body.
-/

/-- Value of a list of ASCII digit characters, as computed by Python `int`. -/
def digitsToNat (ds : List Char) : Nat :=
  ds.foldl (fun n c => n * 10 + (c.toNat - 48)) 0

/-- Strips the literal `lit` from the front of `s`, returning the remainder,
or `none` when `s` does not start with `lit`. -/
def stripLit : List Char → List Char → Option (List Char)
  | [], s => some s
  | _ :: _, [] => none
  | p :: ps, c :: cs => if c = p then stripLit ps cs else none

/-- Anchored match of the pattern `Lines (\d+)-(\d+)` of `extract_lines`
(`app.py` line 89) at the head of `s`: the literal `Lines `, a maximal
nonempty digit run, `-`, a maximal nonempty digit run.  Returns the two
captured numbers and the remainder of the input after the match. -/
def matchLinesAt (s : List Char) : Option (Nat × Nat × List Char) :=
  match stripLit "Lines ".data s with
  | none => none
  | some r1 =>
    if r1.takeWhile Char.isDigit = [] then none
    else
      match r1.dropWhile Char.isDigit with
      | [] => none
      | c2 :: r3 =>
        if c2 = '-' then
          if r3.takeWhile Char.isDigit = [] then none
          else some (digitsToNat (r1.takeWhile Char.isDigit),
                     digitsToNat (r3.takeWhile Char.isDigit),
                     r3.dropWhile Char.isDigit)
        else none

/-- Fuelled scanner behind `findLines`: the left-to-right non-overlapping
scan performed by `re.findall` for the pattern of `matchLinesAt`. -/
def findLinesAux : Nat → List Char → List (Nat × Nat)
  | 0, _ => []
  | _ + 1, [] => []
  | fuel + 1, c :: cs =>
    match matchLinesAt (c :: cs) with
    | some (a, b, rest) => (a, b) :: findLinesAux fuel rest
    | none => findLinesAux fuel cs

/-- Embedding of `re.findall(r'Lines (\d+)-(\d+)', text)` (`app.py`
line 92): all non-overlapping matches, leftmost first.  The fuel
`s.length` dominates the number of scan steps, every one of which
consumes at least one character. -/
def findLines (s : List Char) : List (Nat × Nat) :=
  findLinesAux s.length s

/-- Expansion of one regex match `(start, end)` into tuples `(1, line)` for
`line` in Python `range(start, end + 1)` (`app.py` lines 97-101). -/
def expand (m : Nat × Nat) : List (Nat × Nat) :=
  (List.range' m.1 (m.2 + 1 - m.1)).map (fun line => (1, line))

/-- Embedding of `extract_lines` (`app.py` lines 74-103): find all
`Lines A-B` matches, expand each into `(1, line)` tuples. -/
def extract_lines (text : String) : List (Nat × Nat) :=
  (findLines text.data).flatMap expand

/-- Anchored match of the pattern `\(([^,]+\.pdf), Lines \d+-\d+\)` of
`extract_document_name` (`app.py` line 26) at the head of `s`, returning
the captured group.  The greedy `[^,]+\.pdf` followed by the literal
comma forces the group to be exactly the maximal comma-free run after
the opening parenthesis, which must end in `.pdf` preceded by at least
one character. -/
def matchDocAt (s : List Char) : Option String :=
  match s with
  | [] => none
  | c0 :: s1 =>
    if c0 = '(' then
      if 5 ≤ (s1.takeWhile (fun c => c ≠ ',')).length ∧
          (s1.takeWhile (fun c => c ≠ ',')).drop
            ((s1.takeWhile (fun c => c ≠ ',')).length - 4) = ".pdf".data then
        match stripLit ", Lines ".data (s1.dropWhile (fun c => c ≠ ',')) with
        | none => none
        | some r2 =>
          if r2.takeWhile Char.isDigit = [] then none
          else
            match r2.dropWhile Char.isDigit with
            | [] => none
            | c3 :: r4 =>
              if c3 = '-' then
                if r4.takeWhile Char.isDigit = [] then none
                else
                  match r4.dropWhile Char.isDigit with
                  | [] => none
                  | c5 :: _ =>
                    if c5 = ')' then some (String.mk (s1.takeWhile (fun c => c ≠ ',')))
                    else none
              else none
      else none
    else none

/-- Left-to-right search for the first position where the anchored
matcher `f` succeeds: the embedding of `re.search`. -/
def scanFirst (f : List Char → Option String) : List Char → Option String
  | [] => none
  | c :: cs =>
    match f (c :: cs) with
    | some r => some r
    | none => scanFirst f cs

/-- Embedding of `extract_document_name` (`app.py` lines 15-31):
`re.search` of the document-name pattern, returning the first match's
captured name, or `None` if there is no match. -/
def extract_document_name (text : String) : Option String :=
  scanFirst matchDocAt text.data

/-- Axis-aligned bounding box `(x0, y0, x1, y1)` in PDF page coordinates,
the shape of `text_line.bbox` in pdfminer. -/
structure BBox where
  x0 : ℚ
  y0 : ℚ
  x1 : ℚ
  y1 : ℚ
deriving DecidableEq, Repr

/-- Child of a pdfminer text container: either an `LTTextLine` carrying a
bounding box, or any other layout object (ignored by the code). -/
inductive LayoutItem where
  | textLine (bbox : BBox)
  | otherItem
deriving DecidableEq, Repr

/-- Top-level element of a pdfminer page layout: either an
`LTTextContainer` with its children, or any other element (ignored). -/
inductive LayoutElement where
  | textContainer (items : List LayoutItem)
  | otherElement
deriving DecidableEq, Repr

/-- Bounding boxes of the `LTTextLine` children of one container, in order. -/
def containerLines (items : List LayoutItem) : List BBox :=
  items.filterMap (fun it =>
    match it with
    | LayoutItem.textLine bb => some bb
    | LayoutItem.otherItem => none)

/-- All text-line bounding boxes of a page, in layout order: the lines the
running counter of `extract_line_bboxes` walks over. -/
def allLines (layout : List LayoutElement) : List BBox :=
  layout.flatMap (fun el =>
    match el with
    | LayoutElement.textContainer items => containerLines items
    | LayoutElement.otherElement => [])

/-- Embedding of `is_within_bbox` (`app.py` lines 33-36). -/
def is_within_bbox (bbox constraint_bbox : BBox) (margin : ℚ) : Bool :=
  constraint_bbox.x0 ≤ bbox.x0 + margin ∧ constraint_bbox.y0 ≤ bbox.y0 + margin ∧
    constraint_bbox.x1 ≥ bbox.x1 - margin ∧ constraint_bbox.y1 ≥ bbox.y1 - margin

/-- Inner loop of `extract_line_bboxes` over one container's children
(`app.py` lines 45-51): bump the running counter at each text line; on
hitting the target, append that line's bbox to the accumulator and
`break` out of this container.  Returns the updated counter and
accumulator. -/
def scanContainer (target : Nat) : List LayoutItem → Nat → List BBox → Nat × List BBox
  | [], counter, acc => (counter, acc)
  | LayoutItem.textLine bb :: rest, counter, acc =>
    if counter + 1 = target then (counter + 1, acc ++ [bb])
    else scanContainer target rest (counter + 1) acc
  | LayoutItem.otherItem :: rest, counter, acc => scanContainer target rest counter acc

/-- Outer loop of `extract_line_bboxes` over the page's elements
(`app.py` lines 43-51), threading the running counter and accumulator. -/
def walkPage (target : Nat) : List LayoutElement → Nat → List BBox → Nat × List BBox
  | [], counter, acc => (counter, acc)
  | LayoutElement.textContainer items :: rest, counter, acc =>
    walkPage target rest (scanContainer target items counter acc).1
      (scanContainer target items counter acc).2
  | LayoutElement.otherElement :: rest, counter, acc => walkPage target rest counter acc

/-- Embedding of `extract_line_bboxes` (`app.py` lines 38-52): walk the
page layout, counting text lines across containers, collecting the bbox
of the line whose running index equals `target_line_number`. -/
def extract_line_bboxes (page_layout : List LayoutElement) (target_line_number : Nat) : List BBox :=
  (walkPage target_line_number page_layout 0 []).2

/-- PDF highlight annotation dictionary as built by the code: flag `/F`,
`/Type`, `/Subtype`, color `/C`, `/Rect` and `/QuadPoints` entries. -/
structure Annot where
  F : Nat
  typeName : String
  subtypeName : String
  color : List ℚ
  Rect : List ℚ
  QuadPoints : List ℚ
deriving DecidableEq, Repr

/-- Python `min` over a nonempty list given as head and tail. -/
def pyMin (a : ℚ) (l : List ℚ) : ℚ := l.foldl min a

/-- Python `max` over a nonempty list given as head and tail. -/
def pyMax (a : ℚ) (l : List ℚ) : ℚ := l.foldl max a

/-- The eight quad-point coordinates one box contributes
(`app.py` line 61). -/
def quadOf (bb : BBox) : List ℚ :=
  [bb.x0, bb.y1, bb.x1, bb.y1, bb.x0, bb.y0, bb.x1, bb.y0]

/-- The quad-point accumulation loop of the builder (`app.py`
lines 58-61): start from `[]` and extend with each box's eight
coordinates in input order. -/
def quadPointsOf (bounds : List BBox) : List ℚ :=
  bounds.foldl (fun acc bb => acc ++ quadOf bb) []

/-- Default highlight color `[1, 1, 0]` (yellow). -/
def yellow : List ℚ := [1, 1, 0]

/-- Embedding of the highlight builder `app.py` lines 54-70.  The Python
unpacking `x0, y0, x1, y1 = [list(s) for s in zip(*bounds)]` raises
`ValueError` on an empty `bounds`, embedded as the `Except.error`
branch; on a nonempty input it yields the four coordinate columns, from
which the `/Rect` is the componentwise min/min/max/max and the
`/QuadPoints` the accumulated per-box quads. -/
def highlight_annotation (bounds : List BBox) (color : List ℚ) : Except String Annot :=
  match bounds with
  | [] => Except.error "not enough values to unpack (expected 4, got 0)"
  | b :: bs =>
    Except.ok
      { F := 4
        typeName := "/Annot"
        subtypeName := "/Highlight"
        color := color
        Rect := [pyMin b.x0 (bs.map BBox.x0), pyMin b.y0 (bs.map BBox.y0),
                 pyMax b.x1 (bs.map BBox.x1), pyMax b.y1 (bs.map BBox.y1)]
        QuadPoints := quadPointsOf (b :: bs) }

/-- A page of the fetched PDF: its pdfminer layout together with its
(optional) `/Annots` array. -/
structure Page where
  layout : List LayoutElement
  annots : Option (List Annot)
deriving DecidableEq, Repr

/-- Embedding of the annotation-injection step (`app.py` lines 160-163):
append to the page's `/Annots` array when it exists, otherwise create a
fresh one-element array. -/
def attach (page : Page) (a : Annot) : Page :=
  match page.annots with
  | some arr => { page with annots := some (arr ++ [a]) }
  | none => { page with annots := some [a] }

/-- One iteration of the per-line loop (`app.py` lines 156-163): locate
the line's boxes; when some exist, build the highlight (propagating a
builder failure, which the endpoint's `except` would turn into a 500)
and attach it to the page. -/
def processLine (page : Page) (line_number : Nat) : Except String Page :=
  match extract_line_bboxes page.layout line_number with
  | [] => Except.ok page
  | b :: bs =>
    match highlight_annotation (b :: bs) yellow with
    | Except.ok a => Except.ok (attach page a)
    | Except.error e => Except.error e

/-- The per-line loop over all cited lines of one page. -/
def processLines : Page → List Nat → Except String Page
  | page, [] => Except.ok page
  | page, l :: ls =>
    match processLine page l with
    | Except.ok page2 => processLines page2 ls
    | Except.error e => Except.error e

/-- Per-page body of the main loop (`app.py` lines 153-163): restrict the
parsed references to this page number and process each cited line. -/
def processPage (pairs : List (Nat × Nat)) (page_num : Nat) (page : Page) : Except String Page :=
  let lines_to_highlight := (pairs.filter (fun pr => pr.1 == page_num)).map (fun pr => pr.2)
  if lines_to_highlight.isEmpty then Except.ok page
  else processLines page lines_to_highlight

/-- The main loop of `view_pdf` over the document's pages (`app.py`
lines 150-165), with 1-based page numbers from `enumerate(..., start=1)`. -/
def processPagesFrom (pairs : List (Nat × Nat)) : Nat → List Page → Except String (List Page)
  | _, [] => Except.ok []
  | page_num, pg :: rest =>
    match processPage pairs page_num pg with
    | Except.ok pg2 =>
      match processPagesFrom pairs (page_num + 1) rest with
      | Except.ok rest2 => Except.ok (pg2 :: rest2)
      | Except.error e => Except.error e
    | Except.error e => Except.error e

/-- Body of an HTTP response of the endpoint: either the serialized
annotated PDF or a plain-text message. -/
inductive Body where
  | pdf (pages : List Page)
  | text (msg : String)
deriving DecidableEq, Repr

/-- HTTP response: status code and body.  A bare Flask string return has
status 200. -/
structure HttpResponse where
  status : Nat
  body : Body
deriving DecidableEq, Repr

/-- Embedding of the endpoint `view_pdf` (`app.py` lines 117-180), with
the external `requests.get` abstracted as the oracle `fetch` from the
extracted document name to a status code and decoded pages.  The code
fetches the document unconditionally, before any check on the parsed
line references. -/
def view_pdf (text : String) (fetch : Option String → Nat × List Page) : HttpResponse :=
  let document_name := extract_document_name text
  let fetched := fetch document_name
  if fetched.1 ≠ 200 then ⟨500, Body.text "Unable to fetch the PDF."⟩
  else if text = "" then ⟨200, Body.text "No chatbot response provided."⟩
  else
    let page_line_pairs := extract_lines text
    if page_line_pairs = [] then ⟨400, Body.text "No lines to highlight."⟩
    else
      match processPagesFrom page_line_pairs 1 fetched.2 with
      | Except.ok out => ⟨200, Body.pdf out⟩
      | Except.error e => ⟨500, Body.text ("An error occurred: " ++ e)⟩

/-- Declarative shape of an anchored `Lines (\d+)-(\d+)` match: the
literal, a nonempty digit run, a dash, a nonempty digit run, and a
remainder not starting with a digit (maximality of the second run);
the captured numbers are the decimal values of the two runs. -/
def LinesShape (s : List Char) (a b : Nat) (rest : List Char) : Prop :=
  ∃ d1 d2 : List Char,
    s = "Lines ".data ++ (d1 ++ '-' :: (d2 ++ rest)) ∧
    d1 ≠ [] ∧ (∀ c ∈ d1, c.isDigit = true) ∧
    d2 ≠ [] ∧ (∀ c ∈ d2, c.isDigit = true) ∧
    (∀ c, rest.head? = some c → c.isDigit = false) ∧
    a = digitsToNat d1 ∧ b = digitsToNat d2

/-- Declarative shape of an anchored document-name match: an opening
parenthesis, a comma-free group that is a nonempty stem followed by
`.pdf`, the literal `, Lines `, two nonempty digit runs separated by a
dash, and a closing parenthesis; the captured name is the group. -/
def DocShape (s : List Char) (nm : String) : Prop :=
  ∃ (x d1 d2 rest : List Char),
    s = '(' :: (x ++ (", Lines ".data ++ (d1 ++ '-' :: (d2 ++ ')' :: rest)))) ∧
    (∀ c ∈ x, c ≠ ',') ∧
    (∃ stem, stem ≠ [] ∧ x = stem ++ ".pdf".data) ∧
    d1 ≠ [] ∧ (∀ c ∈ d1, c.isDigit = true) ∧
    d2 ≠ [] ∧ (∀ c ∈ d2, c.isDigit = true) ∧
    nm = String.mk x

/-- Two overlapping boxes used to instantiate the builder theorems. -/
def demoBox1 : BBox := ⟨0, 0, 10, 5⟩

/-- Second demonstration box, overlapping `demoBox1`. -/
def demoBox2 : BBox := ⟨2, -1, 12, 4⟩

/-- A page layout with three text lines spread over two containers, with
non-line items interleaved. -/
def demoLayout : List LayoutElement :=
  [LayoutElement.textContainer [LayoutItem.textLine demoBox1, LayoutItem.otherItem,
     LayoutItem.textLine demoBox2],
   LayoutElement.otherElement,
   LayoutElement.textContainer [LayoutItem.textLine ⟨1, 1, 2, 2⟩]]

/-- A page with exactly two text lines and no pre-existing annotations. -/
def demoPage : Page :=
  { layout := [LayoutElement.textContainer
      [LayoutItem.textLine demoBox1, LayoutItem.textLine demoBox2]],
    annots := none }

/-- A concrete annotation used to instantiate the injection theorems. -/
def demoAnnot : Annot :=
  { F := 4, typeName := "/Annot", subtypeName := "/Highlight", color := yellow,
    Rect := [0, 0, 1, 1], QuadPoints := [0, 1, 1, 1, 0, 0, 1, 0] }

/-- A second concrete annotation. -/
def demoAnnot2 : Annot :=
  { F := 4, typeName := "/Annot", subtypeName := "/Highlight", color := yellow,
    Rect := [2, 2, 3, 3], QuadPoints := [2, 3, 3, 3, 2, 2, 3, 2] }

/-- A page that already carries one annotation. -/
def demoPageWithAnnots : Page :=
  { layout := [], annots := some [demoAnnot2] }

/-- Fetch oracle whose blob store always answers 404. -/
def failFetch : Option String → Nat × List Page := fun _ => (404, [])

/-- Fetch oracle answering 200 with a document that has no pages. -/
def emptyFetch : Option String → Nat × List Page := fun _ => (200, [])

/-- Fetch oracle answering 200 with a one-page document of two lines. -/
def demoFetch : Option String → Nat × List Page := fun _ => (200, [demoPage])

lemma stripLit_eq_some_iff (lit s r : List Char) :
    stripLit lit s = some r ↔ s = lit ++ r := by
  induction lit generalizing s with
  | nil => simp [stripLit]
  | cons p ps ih =>
    cases s with
    | nil => simp [stripLit]
    | cons c cs =>
      by_cases hc : c = p
      · subst hc
        simp [stripLit, ih]
      · simp [stripLit, hc, Ne.symm hc]

lemma takeWhile_exact (p : Char → Bool) (x r : List Char)
    (hx : ∀ c ∈ x, p c = true) (hr : ∀ c, r.head? = some c → p c = false) :
    (x ++ r).takeWhile p = x ∧ (x ++ r).dropWhile p = r := by
  induction x with
  | nil =>
    cases r with
    | nil => simp
    | cons c cs =>
      have := hr c (by simp)
      simp [List.takeWhile, List.dropWhile, this]
  | cons c cs ih =>
    have hc := hx c (by simp)
    have := ih (fun d hd => hx d (by simp [hd]))
    simp [List.takeWhile, List.dropWhile, hc, this.1, this.2]

lemma head?_dropWhile_false (p : Char → Bool) (l : List Char) :
    ∀ c, (l.dropWhile p).head? = some c → p c = false := by
  induction l with
  | nil => simp
  | cons d ds ih =>
    intro c hc
    by_cases hd : p d
    · exact ih c (by simpa [List.dropWhile, hd] using hc)
    · simp only [List.dropWhile, hd, Bool.false_eq_true, if_false] at hc
      simp only [List.head?, Option.some.injEq] at hc
      subst hc
      simpa using hd

/-- The anchored matcher of `extract_lines` succeeds exactly on inputs of
the declarative shape `LinesShape`. -/
lemma matchLinesAt_eq_some_iff (s : List Char) (a b : Nat) (rest : List Char) :
    matchLinesAt s = some (a, b, rest) ↔ LinesShape s a b rest := by
  constructor
  · intro h
    rcases hs : stripLit "Lines ".data s with _ | r1
    · simp [matchLinesAt, hs] at h
    simp only [matchLinesAt, hs] at h
    have hr1 : s = "Lines ".data ++ r1 := (stripLit_eq_some_iff _ _ _).mp hs
    by_cases hd1 : r1.takeWhile Char.isDigit = []
    · simp [hd1] at h
    rw [if_neg hd1] at h
    rcases hr2 : r1.dropWhile Char.isDigit with _ | ⟨c2, r3⟩
    · rw [hr2] at h; exact absurd h (by simp)
    rw [hr2] at h
    simp only at h
    by_cases hc2 : c2 = '-'
    swap
    · rw [if_neg hc2] at h; exact absurd h (by simp)
    subst hc2
    rw [if_pos rfl] at h
    by_cases hd2 : r3.takeWhile Char.isDigit = []
    · simp [hd2] at h
    rw [if_neg hd2] at h
    simp only [Option.some.injEq, Prod.mk.injEq] at h
    obtain ⟨ha, hb, hrest⟩ := h
    refine ⟨r1.takeWhile Char.isDigit, r3.takeWhile Char.isDigit, ?_, hd1,
      fun c hc => List.mem_takeWhile_imp hc, hd2,
      fun c hc => List.mem_takeWhile_imp hc, ?_, ha.symm, hb.symm⟩
    · have e1 : r1.takeWhile Char.isDigit ++ r1.dropWhile Char.isDigit = r1 :=
        List.takeWhile_append_dropWhile _ _
      rw [hr2] at e1
      have e2 : r3.takeWhile Char.isDigit ++ r3.dropWhile Char.isDigit = r3 :=
        List.takeWhile_append_dropWhile _ _
      rw [hrest] at e2
      rw [e2, e1]
      exact hr1
    · rw [← hrest]
      exact head?_dropWhile_false _ _
  · rintro ⟨d1, d2, hs, hd1, hd1d, hd2, hd2d, hrest, ha, hb⟩
    subst hs
    have e1 := takeWhile_exact Char.isDigit d1 ('-' :: (d2 ++ rest)) hd1d
      (by intro c hc; simp only [List.head?, Option.some.injEq] at hc; subst hc; decide)
    have e2 := takeWhile_exact Char.isDigit d2 rest hd2d hrest
    have hstrip : stripLit "Lines ".data ("Lines ".data ++ (d1 ++ '-' :: (d2 ++ rest))) =
        some (d1 ++ '-' :: (d2 ++ rest)) := (stripLit_eq_some_iff _ _ _).mpr rfl
    simp only [matchLinesAt, hstrip, e1.1, e1.2, if_neg hd1, e2.1, e2.2,
      if_neg hd2, ha, hb]
    simp

lemma pdf_suffix_iff (x : List Char) :
    (5 ≤ x.length ∧ x.drop (x.length - 4) = ".pdf".data) ↔
      ∃ stem, stem ≠ [] ∧ x = stem ++ ".pdf".data := by
  constructor
  · rintro ⟨hlen, hdrop⟩
    refine ⟨x.take (x.length - 4), ?_, ?_⟩
    · intro h
      have := congrArg List.length h
      simp at this
      omega
    · conv_lhs => rw [← List.take_append_drop (x.length - 4) x]
      rw [hdrop]
  · rintro ⟨stem, hne, rfl⟩
    have hpos : 1 ≤ stem.length := List.length_pos.mpr hne
    have hlen : (stem ++ ".pdf".data).length = stem.length + 4 := by simp
    constructor
    · omega
    · rw [hlen]
      have : stem.length + 4 - 4 = stem.length := by omega
      rw [this]
      exact List.drop_left stem ".pdf".data

/-- The anchored matcher of `extract_document_name` succeeds exactly on
inputs of the declarative shape `DocShape`. -/
lemma matchDocAt_eq_some_iff (s : List Char) (nm : String) :
    matchDocAt s = some nm ↔ DocShape s nm := by
  constructor
  · intro h
    rcases s with _ | ⟨c0, s1⟩
    · simp [matchDocAt] at h
    simp only [matchDocAt] at h
    by_cases hc0 : c0 = '('
    swap
    · rw [if_neg hc0] at h; exact absurd h (by simp)
    subst hc0
    rw [if_pos rfl] at h
    by_cases hpdf : 5 ≤ (s1.takeWhile (fun c => c ≠ ',')).length ∧
        (s1.takeWhile (fun c => c ≠ ',')).drop
          ((s1.takeWhile (fun c => c ≠ ',')).length - 4) = ".pdf".data
    swap
    · rw [if_neg hpdf] at h; exact absurd h (by simp)
    rw [if_pos hpdf] at h
    rcases hs : stripLit ", Lines ".data (s1.dropWhile (fun c => c ≠ ',')) with _ | r2
    · rw [hs] at h; exact absurd h (by simp)
    rw [hs] at h
    simp only at h
    by_cases hd1 : r2.takeWhile Char.isDigit = []
    · simp [hd1] at h
    rw [if_neg hd1] at h
    rcases hr3 : r2.dropWhile Char.isDigit with _ | ⟨c3, r4⟩
    · rw [hr3] at h; exact absurd h (by simp)
    rw [hr3] at h
    simp only at h
    by_cases hc3 : c3 = '-'
    swap
    · rw [if_neg hc3] at h; exact absurd h (by simp)
    subst hc3
    rw [if_pos rfl] at h
    by_cases hd2 : r4.takeWhile Char.isDigit = []
    · simp [hd2] at h
    rw [if_neg hd2] at h
    rcases hr5 : r4.dropWhile Char.isDigit with _ | ⟨c5, rtail⟩
    · rw [hr5] at h; exact absurd h (by simp)
    rw [hr5] at h
    simp only at h
    by_cases hc5 : c5 = ')'
    swap
    · rw [if_neg hc5] at h; exact absurd h (by simp)
    subst hc5
    rw [if_pos rfl] at h
    simp only [Option.some.injEq] at h
    refine ⟨s1.takeWhile (fun c => c ≠ ','), r2.takeWhile Char.isDigit,
      r4.takeWhile Char.isDigit, rtail, ?_, ?_, (pdf_suffix_iff _).mp hpdf, hd1,
      fun c hc => List.mem_takeWhile_imp hc, hd2,
      fun c hc => List.mem_takeWhile_imp hc, h.symm⟩
    · have e0 : s1.takeWhile (fun c => c ≠ ',') ++ s1.dropWhile (fun c => c ≠ ',') = s1 :=
        List.takeWhile_append_dropWhile _ _
      have e1 : s1.dropWhile (fun c => c ≠ ',') = ", Lines ".data ++ r2 :=
        (stripLit_eq_some_iff _ _ _).mp hs
      have e2 : r2.takeWhile Char.isDigit ++ r2.dropWhile Char.isDigit = r2 :=
        List.takeWhile_append_dropWhile _ _
      rw [hr3] at e2
      have e3 : r4.takeWhile Char.isDigit ++ r4.dropWhile Char.isDigit = r4 :=
        List.takeWhile_append_dropWhile _ _
      rw [hr5] at e3
      rw [e3, e2]
      rw [← e1]
      rw [e0]
    · intro c hc
      have := List.mem_takeWhile_imp hc
      simpa using this
  · rintro ⟨x, d1, d2, rest, hs, hx, hstem, hd1, hd1d, hd2, hd2d, hnm⟩
    subst hs
    have hhead : ∀ c, ((", Lines ".data ++ (d1 ++ '-' :: (d2 ++ ')' :: rest))).head? = some c →
        (fun c => decide (c ≠ ',')) c = false) := by
      intro c hc
      have : c = ',' := by
        have : (", Lines ".data ++ (d1 ++ '-' :: (d2 ++ ')' :: rest))).head? = some ',' := rfl
        rw [this] at hc
        exact (Option.some.injEq _ _ ▸ hc).symm
      subst this
      decide
    have e0 := takeWhile_exact (fun c => decide (c ≠ ',')) x
      (", Lines ".data ++ (d1 ++ '-' :: (d2 ++ ')' :: rest)))
      (fun c hc => by simpa using hx c hc) hhead
    have e1 := takeWhile_exact Char.isDigit d1 ('-' :: (d2 ++ ')' :: rest)) hd1d
      (by intro c hc; simp only [List.head?, Option.some.injEq] at hc; subst hc; decide)
    have e2 := takeWhile_exact Char.isDigit d2 (')' :: rest) hd2d
      (by intro c hc; simp only [List.head?, Option.some.injEq] at hc; subst hc; decide)
    have hstrip : stripLit ", Lines ".data
        (", Lines ".data ++ (d1 ++ '-' :: (d2 ++ ')' :: rest))) =
        some (d1 ++ '-' :: (d2 ++ ')' :: rest)) := (stripLit_eq_some_iff _ _ _).mpr rfl
    simp only [matchDocAt, if_pos rfl, e0.1, e0.2, (pdf_suffix_iff x).mpr hstem, if_true,
      hstrip, e1.1, e1.2, if_neg hd1, e2.1, e2.2, if_neg hd2, hnm]
    simp

lemma scanFirst_eq_none_iff (f : List Char → Option String) (s : List Char) :
    scanFirst f s = none ↔ ∀ i, i < s.length → f (s.drop i) = none := by
  induction s with
  | nil => simp [scanFirst]
  | cons c cs ih =>
    cases hf : f (c :: cs) with
    | some r =>
      simp only [scanFirst, hf]
      constructor
      · intro h; exact absurd h (by simp)
      · intro h
        have h0 := h 0 (by simp)
        rw [List.drop_zero] at h0
        rw [h0] at hf
        exact absurd hf (by simp)
    | none =>
      simp only [scanFirst, hf]
      rw [ih]
      constructor
      · intro h i hi
        cases i with
        | zero => simpa using hf
        | succ i2 =>
          rw [List.drop_succ_cons]
          exact h i2 (by simpa using hi)
      · intro h i hi
        have := h (i + 1) (by simpa using hi)
        rwa [List.drop_succ_cons] at this

lemma scanFirst_eq_some_iff (f : List Char → Option String) (s : List Char) (r : String) :
    scanFirst f s = some r ↔
      ∃ i, i < s.length ∧ f (s.drop i) = some r ∧ ∀ j, j < i → f (s.drop j) = none := by
  induction s with
  | nil => simp [scanFirst]
  | cons c cs ih =>
    cases hf : f (c :: cs) with
    | some r0 =>
      simp only [scanFirst, hf, Option.some.injEq]
      constructor
      · rintro rfl
        exact ⟨0, by simp, by simpa using hf, by omega⟩
      · rintro ⟨i, hi, hfi, hmin⟩
        cases i with
        | zero =>
          rw [List.drop_zero, hf] at hfi
          exact (Option.some.injEq _ _).mp hfi
        | succ i2 =>
          have := hmin 0 (by omega)
          rw [List.drop_zero, hf] at this
          exact absurd this (by simp)
    | none =>
      simp only [scanFirst, hf]
      rw [ih]
      constructor
      · rintro ⟨i, hi, hfi, hmin⟩
        refine ⟨i + 1, by simpa using hi, by rwa [List.drop_succ_cons], ?_⟩
        intro j hj
        cases j with
        | zero => simpa using hf
        | succ j2 =>
          rw [List.drop_succ_cons]
          exact hmin j2 (by omega)
      · rintro ⟨i, hi, hfi, hmin⟩
        cases i with
        | zero =>
          rw [List.drop_zero, hf] at hfi
          exact absurd hfi (by simp)
        | succ i2 =>
          rw [List.drop_succ_cons] at hfi
          refine ⟨i2, by simpa using hi, hfi, ?_⟩
          intro j hj
          have := hmin (j + 1) (by omega)
          rwa [List.drop_succ_cons] at this

lemma containerLines_nil : containerLines [] = [] := rfl

lemma containerLines_textLine (bb : BBox) (rest : List LayoutItem) :
    containerLines (LayoutItem.textLine bb :: rest) = bb :: containerLines rest := rfl

lemma containerLines_other (rest : List LayoutItem) :
    containerLines (LayoutItem.otherItem :: rest) = containerLines rest := rfl

lemma allLines_nil : allLines [] = [] := rfl

lemma allLines_textContainer (items : List LayoutItem) (rest : List LayoutElement) :
    allLines (LayoutElement.textContainer items :: rest) =
      containerLines items ++ allLines rest := by
  simp [allLines]

lemma allLines_other (rest : List LayoutElement) :
    allLines (LayoutElement.otherElement :: rest) = allLines rest := by
  simp [allLines]

lemma scanContainer_no_hit (target : Nat) (items : List LayoutItem) :
    ∀ counter acc, (target ≤ counter ∨ counter + (containerLines items).length < target) →
      scanContainer target items counter acc = (counter + (containerLines items).length, acc) := by
  induction items with
  | nil => intro counter acc _; simp [scanContainer, containerLines_nil]
  | cons it rest ih =>
    intro counter acc h
    cases it with
    | textLine bb =>
      rw [containerLines_textLine] at h ⊢
      simp only [List.length_cons] at h ⊢
      have hne : ¬(counter + 1 = target) := by omega
      rw [scanContainer, if_neg hne, ih (counter + 1) acc (by omega)]
      simp only [Prod.mk.injEq]
      exact ⟨by omega, trivial⟩
    | otherItem =>
      rw [containerLines_other] at h ⊢
      rw [scanContainer]
      exact ih counter acc h

lemma scanContainer_hit (target : Nat) (items : List LayoutItem) :
    ∀ counter acc, counter < target →
      target ≤ counter + (containerLines items).length →
      scanContainer target items counter acc =
        (target, acc ++ ((containerLines items).drop (target - counter - 1)).take 1) := by
  induction items with
  | nil =>
    intro counter acc h1 h2
    rw [containerLines_nil] at h2
    simp at h2
    omega
  | cons it rest ih =>
    intro counter acc h1 h2
    cases it with
    | textLine bb =>
      rw [containerLines_textLine] at h2 ⊢
      simp only [List.length_cons] at h2
      by_cases hh : counter + 1 = target
      · rw [scanContainer, if_pos hh]
        have hidx : target - counter - 1 = 0 := by omega
        rw [hidx]
        simp [hh]
      · rw [scanContainer, if_neg hh]
        rw [ih (counter + 1) acc (by omega) (by omega)]
        have hidx : target - counter - 1 = (target - (counter + 1) - 1) + 1 := by omega
        rw [hidx, List.drop_succ_cons]
    | otherItem =>
      rw [containerLines_other] at h2 ⊢
      rw [scanContainer]
      exact ih counter acc h1 h2

lemma walkPage_no_hit (target : Nat) (layout : List LayoutElement) :
    ∀ counter acc, (target ≤ counter ∨ counter + (allLines layout).length < target) →
      walkPage target layout counter acc = (counter + (allLines layout).length, acc) := by
  induction layout with
  | nil => intro counter acc _; simp [walkPage, allLines_nil]
  | cons el rest ih =>
    intro counter acc h
    cases el with
    | textContainer items =>
      rw [allLines_textContainer] at h ⊢
      simp only [List.length_append] at h ⊢
      have hc := scanContainer_no_hit target items counter acc (by omega)
      rw [walkPage, hc]
      simp only
      rw [ih (counter + (containerLines items).length) acc (by omega)]
      simp only [Prod.mk.injEq]
      exact ⟨by omega, trivial⟩
    | otherElement =>
      rw [allLines_other] at h ⊢
      rw [walkPage]
      exact ih counter acc h

lemma walkPage_hit (target : Nat) (layout : List LayoutElement) :
    ∀ counter acc, counter < target →
      target ≤ counter + (allLines layout).length →
      (walkPage target layout counter acc).2 =
        acc ++ ((allLines layout).drop (target - counter - 1)).take 1 := by
  induction layout with
  | nil =>
    intro counter acc h1 h2
    rw [allLines_nil] at h2
    simp at h2
    omega
  | cons el rest ih =>
    intro counter acc h1 h2
    cases el with
    | textContainer items =>
      rw [allLines_textContainer] at h2 ⊢
      simp only [List.length_append] at h2
      by_cases hin : target ≤ counter + (containerLines items).length
      · have hc := scanContainer_hit target items counter acc h1 hin
        rw [walkPage, hc]
        simp only
        rw [walkPage_no_hit target rest target _ (Or.inl le_rfl)]
        simp only
        have hd : target - counter - 1 ≤ (containerLines items).length := by omega
        rw [List.drop_append_of_le_length hd]
        have hlen : 1 ≤ ((containerLines items).drop (target - counter - 1)).length := by
          rw [List.length_drop]
          omega
        rw [List.take_append_of_le_length hlen]
      · have hc := scanContainer_no_hit target items counter acc (by omega)
        rw [walkPage, hc]
        simp only
        rw [ih (counter + (containerLines items).length) acc (by omega) (by omega)]
        have hidx : target - counter - 1 =
            (containerLines items).length + (target - (counter + (containerLines items).length) - 1) := by
          omega
        rw [hidx, List.drop_append]
    | otherElement =>
      rw [allLines_other] at h2 ⊢
      rw [walkPage]
      exact ih counter acc h1 h2

lemma extract_line_bboxes_hit (layout : List LayoutElement) (N : Nat)
    (h1 : 1 ≤ N) (h2 : N ≤ (allLines layout).length) :
    extract_line_bboxes layout N = [(allLines layout).get ⟨N - 1, by omega⟩] := by
  unfold extract_line_bboxes
  rw [walkPage_hit N layout 0 [] (by omega) (by omega)]
  have hlt : N - 0 - 1 < (allLines layout).length := by omega
  rw [List.take_one_drop_eq_of_lt_length hlt]
  simp

lemma extract_line_bboxes_miss (layout : List LayoutElement) (N : Nat)
    (h : N = 0 ∨ (allLines layout).length < N) :
    extract_line_bboxes layout N = [] := by
  unfold extract_line_bboxes
  rw [walkPage_no_hit N layout 0 [] (by omega)]

lemma pyMin_le (a : ℚ) (l : List ℚ) : pyMin a l ≤ a ∧ ∀ x ∈ l, pyMin a l ≤ x := by
  induction l generalizing a with
  | nil => simp [pyMin]
  | cons c cs ih =>
    have h := ih (min a c)
    refine ⟨le_trans h.1 (min_le_left a c), ?_⟩
    intro x hx
    rcases List.mem_cons.mp hx with rfl | hx
    · exact le_trans h.1 (min_le_right a x)
    · exact h.2 x hx

lemma pyMin_attained (a : ℚ) (l : List ℚ) : pyMin a l = a ∨ pyMin a l ∈ l := by
  induction l generalizing a with
  | nil => left; rfl
  | cons c cs ih =>
    rcases ih (min a c) with h | h
    · rcases min_choice a c with hm | hm
      · left; rw [pyMin, List.foldl_cons] at *; rw [h, hm]
      · right; rw [pyMin, List.foldl_cons] at *; rw [h, hm]; exact List.mem_cons_self _ _
    · right
      exact List.mem_cons_of_mem _ h

lemma pyMax_ge (a : ℚ) (l : List ℚ) : a ≤ pyMax a l ∧ ∀ x ∈ l, x ≤ pyMax a l := by
  induction l generalizing a with
  | nil => simp [pyMax]
  | cons c cs ih =>
    have h := ih (max a c)
    refine ⟨le_trans (le_max_left a c) h.1, ?_⟩
    intro x hx
    rcases List.mem_cons.mp hx with rfl | hx
    · exact le_trans (le_max_right a x) h.1
    · exact h.2 x hx

lemma pyMax_attained (a : ℚ) (l : List ℚ) : pyMax a l = a ∨ pyMax a l ∈ l := by
  induction l generalizing a with
  | nil => left; rfl
  | cons c cs ih =>
    rcases ih (max a c) with h | h
    · rcases max_choice a c with hm | hm
      · left; rw [pyMax, List.foldl_cons] at *; rw [h, hm]
      · right; rw [pyMax, List.foldl_cons] at *; rw [h, hm]; exact List.mem_cons_self _ _
    · right
      exact List.mem_cons_of_mem _ h

lemma quadPointsOf_eq_flatMap (bounds : List BBox) :
    quadPointsOf bounds = bounds.flatMap quadOf := by
  suffices h : ∀ acc, bounds.foldl (fun acc bb => acc ++ quadOf bb) acc =
      acc ++ bounds.flatMap quadOf by
    simpa using h []
  induction bounds with
  | nil => intro acc; simp
  | cons b bs ih =>
    intro acc
    rw [List.foldl_cons, ih, List.flatMap_cons, List.append_assoc]

lemma length_flatMap_quadOf (bounds : List BBox) :
    (bounds.flatMap quadOf).length = 8 * bounds.length := by
  induction bounds with
  | nil => simp
  | cons b bs ih =>
    rw [List.flatMap_cons, List.length_append, ih]
    simp [quadOf]
    ring

lemma processLine_ok (page : Page) (l : Nat) :
    ∃ p2, processLine page l = Except.ok p2 := by
  cases h : extract_line_bboxes page.layout l with
  | nil => exact ⟨page, by simp [processLine, h]⟩
  | cons b bs =>
    refine ⟨attach page
      { F := 4, typeName := "/Annot", subtypeName := "/Highlight", color := yellow,
        Rect := [pyMin b.x0 (bs.map BBox.x0), pyMin b.y0 (bs.map BBox.y0),
                 pyMax b.x1 (bs.map BBox.x1), pyMax b.y1 (bs.map BBox.y1)],
        QuadPoints := quadPointsOf (b :: bs) }, ?_⟩
    simp [processLine, h, highlight_annotation]

lemma processLines_ok (ls : List Nat) : ∀ page, ∃ p2, processLines page ls = Except.ok p2 := by
  induction ls with
  | nil => intro page; exact ⟨page, rfl⟩
  | cons l ls ih =>
    intro page
    obtain ⟨p2, h⟩ := processLine_ok page l
    obtain ⟨p3, h3⟩ := ih p2
    exact ⟨p3, by rw [processLines, h]; exact h3⟩

lemma processPage_ok (pairs : List (Nat × Nat)) (k : Nat) (page : Page) :
    ∃ p2, processPage pairs k page = Except.ok p2 := by
  by_cases h : ((pairs.filter (fun pr => pr.1 == k)).map (fun pr => pr.2)).isEmpty
  · exact ⟨page, by simp [processPage, h]⟩
  · obtain ⟨p2, h2⟩ := processLines_ok ((pairs.filter (fun pr => pr.1 == k)).map (fun pr => pr.2)) page
    exact ⟨p2, by simp [processPage, h, h2]⟩

lemma processPagesFrom_ok (pairs : List (Nat × Nat)) :
    ∀ pages k, ∃ out, processPagesFrom pairs k pages = Except.ok out := by
  intro pages
  induction pages with
  | nil => intro k; exact ⟨[], rfl⟩
  | cons pg rest ih =>
    intro k
    obtain ⟨pg2, h1⟩ := processPage_ok pairs k pg
    obtain ⟨rest2, h2⟩ := ih (k + 1)
    exact ⟨pg2 :: rest2, by rw [processPagesFrom, h1]; rw [h2]⟩

lemma processLine_skip (page : Page) (l : Nat)
    (h : extract_line_bboxes page.layout l = []) : processLine page l = Except.ok page := by
  simp [processLine, h]

lemma processLines_id (page : Page) :
    ∀ ls, (∀ l ∈ ls, (allLines page.layout).length < l) →
      processLines page ls = Except.ok page := by
  intro ls
  induction ls with
  | nil => intro _; rfl
  | cons l ls ih =>
    intro h
    have hmiss := extract_line_bboxes_miss page.layout l (Or.inr (h l (by simp)))
    rw [processLines, processLine_skip page l hmiss]
    exact ih (fun x hx => h x (by simp [hx]))

lemma processPage_id (pairs : List (Nat × Nat)) (k : Nat) (page : Page)
    (h : ∀ pr ∈ pairs, pr.1 = k → (allLines page.layout).length < pr.2) :
    processPage pairs k page = Except.ok page := by
  by_cases he : ((pairs.filter (fun pr => pr.1 == k)).map (fun pr => pr.2)).isEmpty
  · simp [processPage, he]
  · have hall : ∀ l ∈ (pairs.filter (fun pr => pr.1 == k)).map (fun pr => pr.2),
        (allLines page.layout).length < l := by
      intro l hl
      obtain ⟨pr, hpr, rfl⟩ := List.mem_map.mp hl
      have hm := List.mem_filter.mp hpr
      exact h pr hm.1 (by simpa using hm.2)
    simp [processPage, he, processLines_id page _ hall]

lemma processPagesFrom_id (pairs : List (Nat × Nat)) :
    ∀ pages k,
      (∀ i pg2, pages.get? i = some pg2 → ∀ pr ∈ pairs, pr.1 = k + i →
        (allLines pg2.layout).length < pr.2) →
      processPagesFrom pairs k pages = Except.ok pages := by
  intro pages
  induction pages with
  | nil => intro k _; rfl
  | cons pg rest ih =>
    intro k h
    have h0 : processPage pairs k pg = Except.ok pg := by
      refine processPage_id pairs k pg ?_
      intro pr hpr hk
      exact h 0 pg rfl pr hpr (by omega)
    have h1 : processPagesFrom pairs (k + 1) rest = Except.ok rest := by
      refine ih (k + 1) ?_
      intro i pg2 hget pr hpr hk
      exact h (i + 1) pg2 (by simpa using hget) pr hpr (by omega)
    rw [processPagesFrom, h0]
    rw [h1]

/-- C1: `extract_lines` scans the text for all `Lines A-B` matches (the
anchored matcher is characterized declaratively by `LinesShape`) in
order of appearance and expands each into its `(1, line)` tuples; every
returned tuple has page component 1, and a text whose scan yields the
single match `Lines A-B` with `A ≤ B` produces exactly `B - A + 1`
tuples whose line numbers cover `[A, B]`. -/
theorem c1_extract_lines_spec (text : String) :
    (∀ s a b rest, matchLinesAt s = some (a, b, rest) ↔ LinesShape s a b rest) ∧
    extract_lines text = (findLines text.data).flatMap expand ∧
    (∀ p ∈ extract_lines text, p.1 = 1) ∧
    (∀ a b : Nat, findLines text.data = [(a, b)] → a ≤ b →
      (extract_lines text).length = b - a + 1 ∧
      ∀ n : Nat, (1, n) ∈ extract_lines text ↔ a ≤ n ∧ n ≤ b) := by
  refine ⟨matchLinesAt_eq_some_iff, rfl, ?_, ?_⟩
  · intro p hp
    simp only [extract_lines, List.mem_flatMap, expand, List.mem_map] at hp
    obtain ⟨m, _, n, _, rfl⟩ := hp
    rfl
  · intro a b hfind hab
    have he : extract_lines text = expand (a, b) := by
      rw [extract_lines, hfind]
      simp
    constructor
    · rw [he, expand]
      simp only [List.length_map, List.length_range']
      omega
    · intro n
      rw [he, expand]
      simp only [List.mem_map, Prod.mk.injEq, true_and]
      constructor
      · rintro ⟨m, hm, rfl⟩
        have := List.mem_range'_1.mp hm
        omega
      · intro hn
        exact ⟨n, List.mem_range'_1.mpr (by omega), rfl⟩

/-- Witness for C1 at the concrete text `Lines 5-7`. -/
theorem c1_extract_lines_spec_witness :
    (extract_lines "Lines 5-7").length = 7 - 5 + 1 ∧
    ∀ n : Nat, (1, n) ∈ extract_lines "Lines 5-7" ↔ 5 ≤ n ∧ n ≤ 7 :=
  (c1_extract_lines_spec "Lines 5-7").2.2.2 5 7 (by decide) (by decide)

/-- C10: a match `Lines A-B` with `A > B` expands to the empty list of
tuples (Python `range` is empty), contributes nothing to the result, and
the remaining matches of the scan still expand normally in order. -/
theorem c10_malformed_range (text : String) (a b : Nat) (hba : b < a) :
    expand (a, b) = [] ∧
    ∀ pre post, findLines text.data = pre ++ (a, b) :: post →
      extract_lines text = pre.flatMap expand ++ post.flatMap expand := by
  have hexp : expand (a, b) = [] := by
    rw [expand]
    have hz : b + 1 - a = 0 := by omega
    rw [hz]
    rfl
  refine ⟨hexp, ?_⟩
  intro pre post hfind
  rw [extract_lines, hfind]
  simp [hexp]

/-- Witness for C10: `Lines 7-3` contributes nothing while the later
match `Lines 2-3` of the same text still expands. -/
theorem c10_malformed_range_witness :
    expand (7, 3) = [] ∧
    extract_lines "Lines 7-3 and Lines 2-3" =
      ([] : List (Nat × Nat)).flatMap expand ++ [(2, 3)].flatMap expand :=
  ⟨(c10_malformed_range "Lines 7-3 and Lines 2-3" 7 3 (by decide)).1,
   (c10_malformed_range "Lines 7-3 and Lines 2-3" 7 3 (by decide)).2 [] [(2, 3)] (by decide)⟩

/-- C2 counterexample: for the text `hello`, which contains no `Lines`
occurrence, the endpoint's outcome still depends on the upstream fetch —
a failing fetch yields the 500 fetch error, not the 400 parse error —
because the code performs the fetch before checking the parsed line
references.  This refutes the claim that the 400 parse error is reached
before any document fetch is attempted. -/
theorem c2_counterexample :
    extract_lines "hello" = [] ∧
    view_pdf "hello" failFetch = ⟨500, Body.text "Unable to fetch the PDF."⟩ ∧
    view_pdf "hello" emptyFetch = ⟨400, Body.text "No lines to highlight."⟩ := by
  refine ⟨by decide, by decide, by decide⟩

/-- C2 (amended): for non-empty citation text whose parse yields no line
references, `view_pdf` returns the 400 "No lines to highlight." error
only when the upstream fetch (which is always performed first) answers
200; when the fetch fails, the 500 fetch error is returned instead. -/
theorem c2_amended_parse_error_after_fetch (text : String)
    (fetch : Option String → Nat × List Page)
    (h0 : text ≠ "") (h1 : extract_lines text = []) :
    ((fetch (extract_document_name text)).1 = 200 →
      view_pdf text fetch = ⟨400, Body.text "No lines to highlight."⟩) ∧
    ((fetch (extract_document_name text)).1 ≠ 200 →
      view_pdf text fetch = ⟨500, Body.text "Unable to fetch the PDF."⟩) := by
  constructor
  · intro h200
    simp [view_pdf, h0, h1, h200]
  · intro hnot
    simp [view_pdf, hnot]

/-- Witness for the amended C2 at the concrete text `hello` with a
succeeding fetch. -/
theorem c2_amended_parse_error_after_fetch_witness :
    view_pdf "hello" emptyFetch = ⟨400, Body.text "No lines to highlight."⟩ :=
  (c2_amended_parse_error_after_fetch "hello" emptyFetch (by decide) (by decide)).1 (by decide)

/-- C3: on a page whose counted text lines (across all containers, in
layout order) number `K = (allLines layout).length`, locating any
`N` with `1 ≤ N ≤ K` returns exactly the bounding box of the `N`-th
counted line (first match only), while `N = 0` or `N > K` (including a
page with no text lines) returns the empty sequence. -/
theorem c3_locate_line (layout : List LayoutElement) (N : Nat) :
    (∀ h : 1 ≤ N ∧ N ≤ (allLines layout).length,
      extract_line_bboxes layout N = [(allLines layout).get ⟨N - 1, by omega⟩]) ∧
    ((N = 0 ∨ (allLines layout).length < N) → extract_line_bboxes layout N = []) := by
  constructor
  · intro h
    exact extract_line_bboxes_hit layout N h.1 h.2
  · exact extract_line_bboxes_miss layout N

/-- Witness for C3 on a three-line demo layout: line 3 (in the second
container) is located, while indices 0 and 4 yield the empty result. -/
theorem c3_locate_line_witness :
    extract_line_bboxes demoLayout 3 = [(allLines demoLayout).get ⟨2, by decide⟩] ∧
    extract_line_bboxes demoLayout 0 = [] ∧
    extract_line_bboxes demoLayout 4 = [] :=
  ⟨(c3_locate_line demoLayout 3).1 ⟨by decide, by decide⟩,
   (c3_locate_line demoLayout 0).2 (Or.inl rfl),
   (c3_locate_line demoLayout 4).2 (Or.inr (by decide))⟩

/-- C4: on any non-empty box sequence the builder succeeds and its `/Rect`
is the componentwise bounding union of the inputs: each entry is a
bound for the corresponding coordinate over all boxes and is attained by
some box — i.e. `[min x0, min y0, max x1, max y1]`. -/
theorem c4_rect_is_bounding_union (bounds : List BBox) (color : List ℚ)
    (h : bounds ≠ []) :
    ∃ a, highlight_annotation bounds color = Except.ok a ∧
      ∃ r0 r1 r2 r3, a.Rect = [r0, r1, r2, r3] ∧
        (∀ bb ∈ bounds, r0 ≤ bb.x0 ∧ r1 ≤ bb.y0 ∧ bb.x1 ≤ r2 ∧ bb.y1 ≤ r3) ∧
        (∃ bb ∈ bounds, bb.x0 = r0) ∧ (∃ bb ∈ bounds, bb.y0 = r1) ∧
        (∃ bb ∈ bounds, bb.x1 = r2) ∧ (∃ bb ∈ bounds, bb.y1 = r3) := by
  cases bounds with
  | nil => exact absurd rfl h
  | cons b bs =>
    refine ⟨_, rfl, pyMin b.x0 (bs.map BBox.x0), pyMin b.y0 (bs.map BBox.y0),
      pyMax b.x1 (bs.map BBox.x1), pyMax b.y1 (bs.map BBox.y1), rfl, ?_, ?_, ?_, ?_, ?_⟩
    · intro bb hbb
      rcases List.mem_cons.mp hbb with rfl | hbb
      · exact ⟨(pyMin_le bb.x0 (bs.map BBox.x0)).1, (pyMin_le bb.y0 (bs.map BBox.y0)).1,
          (pyMax_ge bb.x1 (bs.map BBox.x1)).1, (pyMax_ge bb.y1 (bs.map BBox.y1)).1⟩
      · exact ⟨(pyMin_le b.x0 (bs.map BBox.x0)).2 bb.x0 (List.mem_map_of_mem _ hbb),
          (pyMin_le b.y0 (bs.map BBox.y0)).2 bb.y0 (List.mem_map_of_mem _ hbb),
          (pyMax_ge b.x1 (bs.map BBox.x1)).2 bb.x1 (List.mem_map_of_mem _ hbb),
          (pyMax_ge b.y1 (bs.map BBox.y1)).2 bb.y1 (List.mem_map_of_mem _ hbb)⟩
    · rcases pyMin_attained b.x0 (bs.map BBox.x0) with hm | hm
      · exact ⟨b, List.mem_cons_self _ _, hm.symm⟩
      · obtain ⟨bb, hbb, he⟩ := List.mem_map.mp hm
        exact ⟨bb, List.mem_cons_of_mem _ hbb, he⟩
    · rcases pyMin_attained b.y0 (bs.map BBox.y0) with hm | hm
      · exact ⟨b, List.mem_cons_self _ _, hm.symm⟩
      · obtain ⟨bb, hbb, he⟩ := List.mem_map.mp hm
        exact ⟨bb, List.mem_cons_of_mem _ hbb, he⟩
    · rcases pyMax_attained b.x1 (bs.map BBox.x1) with hm | hm
      · exact ⟨b, List.mem_cons_self _ _, hm.symm⟩
      · obtain ⟨bb, hbb, he⟩ := List.mem_map.mp hm
        exact ⟨bb, List.mem_cons_of_mem _ hbb, he⟩
    · rcases pyMax_attained b.y1 (bs.map BBox.y1) with hm | hm
      · exact ⟨b, List.mem_cons_self _ _, hm.symm⟩
      · obtain ⟨bb, hbb, he⟩ := List.mem_map.mp hm
        exact ⟨bb, List.mem_cons_of_mem _ hbb, he⟩

/-- Witness for C4 on two concrete overlapping boxes. -/
theorem c4_rect_is_bounding_union_witness :
    ∃ a, highlight_annotation [demoBox1, demoBox2] yellow = Except.ok a ∧
      ∃ r0 r1 r2 r3, a.Rect = [r0, r1, r2, r3] ∧
        (∀ bb ∈ [demoBox1, demoBox2], r0 ≤ bb.x0 ∧ r1 ≤ bb.y0 ∧ bb.x1 ≤ r2 ∧ bb.y1 ≤ r3) ∧
        (∃ bb ∈ [demoBox1, demoBox2], bb.x0 = r0) ∧
        (∃ bb ∈ [demoBox1, demoBox2], bb.y0 = r1) ∧
        (∃ bb ∈ [demoBox1, demoBox2], bb.x1 = r2) ∧
        (∃ bb ∈ [demoBox1, demoBox2], bb.y1 = r3) :=
  c4_rect_is_bounding_union [demoBox1, demoBox2] yellow (by decide)

/-- C5: on any non-empty box sequence the builder succeeds and its
`/QuadPoints` is the concatenation, in input order, of the eight
coordinates `(x0,y1), (x1,y1), (x0,y0), (x1,y0)` of each box, so its
length is eight times the number of boxes. -/
theorem c5_quad_points_order (bounds : List BBox) (color : List ℚ)
    (h : bounds ≠ []) :
    ∃ a, highlight_annotation bounds color = Except.ok a ∧
      a.QuadPoints = bounds.flatMap (fun bb =>
        [bb.x0, bb.y1, bb.x1, bb.y1, bb.x0, bb.y0, bb.x1, bb.y0]) ∧
      a.QuadPoints.length = 8 * bounds.length := by
  cases bounds with
  | nil => exact absurd rfl h
  | cons b bs =>
    refine ⟨_, rfl, ?_, ?_⟩
    · exact quadPointsOf_eq_flatMap (b :: bs)
    · show (quadPointsOf (b :: bs)).length = 8 * (b :: bs).length
      rw [quadPointsOf_eq_flatMap]
      exact length_flatMap_quadOf (b :: bs)

/-- Witness for C5 on two concrete boxes. -/
theorem c5_quad_points_order_witness :
    ∃ a, highlight_annotation [demoBox1, demoBox2] yellow = Except.ok a ∧
      a.QuadPoints = [demoBox1, demoBox2].flatMap (fun bb =>
        [bb.x0, bb.y1, bb.x1, bb.y1, bb.x0, bb.y0, bb.x1, bb.y0]) ∧
      a.QuadPoints.length = 8 * ([demoBox1, demoBox2] : List BBox).length :=
  c5_quad_points_order [demoBox1, demoBox2] yellow (by decide)

/-- C6: the builder fails (the Python tuple unpacking raises) on an empty
box sequence; the pipeline never reaches it with zero boxes because an
empty locate result short-circuits the per-line step, so the per-page
processing of the endpoint always succeeds. -/
theorem c6_empty_bounds_rejected :
    (∀ color, ∃ msg, highlight_annotation [] color = Except.error msg) ∧
    (∀ page l, extract_line_bboxes page.layout l = [] →
      processLine page l = Except.ok page) ∧
    (∀ pairs k pages, ∃ out, processPagesFrom pairs k pages = Except.ok out) :=
  ⟨fun _ => ⟨_, rfl⟩, processLine_skip,
   fun pairs k pages => processPagesFrom_ok pairs pages k⟩

/-- Witness for C6: the builder rejects the empty input, and a line index
beyond the demo page's lines short-circuits. -/
theorem c6_empty_bounds_rejected_witness :
    (∃ msg, highlight_annotation [] yellow = Except.error msg) ∧
    processLine demoPage 5 = Except.ok demoPage :=
  ⟨c6_empty_bounds_rejected.1 yellow,
   c6_empty_bounds_rejected.2.1 demoPage 5 (by decide)⟩

/-- C7: attaching appends to an existing annotation list and creates a
singleton list otherwise; two successive attach calls add exactly the
two new entries at the end, preserving all pre-existing entries in
place and leaving the rest of the page unchanged. -/
theorem c7_attach_appends (page : Page) (a1 a2 : Annot) :
    (∀ arr, page.annots = some arr → (attach page a1).annots = some (arr ++ [a1])) ∧
    (page.annots = none → (attach page a1).annots = some [a1]) ∧
    (attach (attach page a1) a2).annots.getD [] = page.annots.getD [] ++ [a1, a2] ∧
    (attach (attach page a1) a2).layout = page.layout := by
  obtain ⟨lay, ann⟩ := page
  cases ann with
  | none => simp [attach]
  | some arr => simp [attach]

/-- Witness for C7 on a page with one pre-existing annotation and on a
page with none. -/
theorem c7_attach_appends_witness :
    (attach demoPageWithAnnots demoAnnot).annots = some ([demoAnnot2] ++ [demoAnnot]) ∧
    (attach demoPage demoAnnot).annots = some [demoAnnot] ∧
    (attach (attach demoPageWithAnnots demoAnnot) demoAnnot2).annots.getD [] =
      demoPageWithAnnots.annots.getD [] ++ [demoAnnot, demoAnnot2] :=
  ⟨(c7_attach_appends demoPageWithAnnots demoAnnot demoAnnot2).1 [demoAnnot2] rfl,
   (c7_attach_appends demoPage demoAnnot demoAnnot2).2.1 rfl,
   (c7_attach_appends demoPageWithAnnots demoAnnot demoAnnot2).2.2.1⟩

/-- C8: when the upstream fetch succeeds, the text is non-empty, parsing
yields some line references, and every reference's line number exceeds
the counted line total of the page it targets (pages are numbered from
1), the endpoint returns a successful 200 response whose document
carries every page through unmodified — no annotation is injected and
the empty locate results are silently skipped. -/
theorem c8_out_of_range_lines_skipped (text : String)
    (fetch : Option String → Nat × List Page)
    (h200 : (fetch (extract_document_name text)).1 = 200)
    (hne : text ≠ "")
    (hsome : extract_lines text ≠ [])
    (hbig : ∀ i pg, (fetch (extract_document_name text)).2.get? i = some pg →
      ∀ pr ∈ extract_lines text, pr.1 = 1 + i → (allLines pg.layout).length < pr.2) :
    view_pdf text fetch = ⟨200, Body.pdf (fetch (extract_document_name text)).2⟩ := by
  have hp := processPagesFrom_id (extract_lines text) (fetch (extract_document_name text)).2 1
    (fun i pg hget pr hpr hk => hbig i pg hget pr hpr (by omega))
  simp [view_pdf, h200, hne, hsome, hp]

/-- Witness for C8: the citation `(doc.pdf, Lines 5-7)` against a
one-page document with only two text lines produces the 200 response
with the page unmodified. -/
theorem c8_out_of_range_lines_skipped_witness :
    view_pdf "(doc.pdf, Lines 5-7)" demoFetch = ⟨200, Body.pdf [demoPage]⟩ :=
  c8_out_of_range_lines_skipped "(doc.pdf, Lines 5-7)" demoFetch (by decide) (by decide)
    (by decide)
    (by
      intro i pg hget pr hpr h1
      simp only [demoFetch] at hget
      cases i with
      | zero =>
        simp only [List.get?] at hget
        have hpg : pg = demoPage := by
          injection hget with h
          exact h.symm
        subst hpg
        have hlist : extract_lines "(doc.pdf, Lines 5-7)" = [(1, 5), (1, 6), (1, 7)] := by
          decide
        rw [hlist] at hpr
        fin_cases hpr <;> decide
      | succ i2 =>
        simp at hget)

/-- C9: `extract_document_name` returns the captured name of the first
(leftmost) position where the document-name pattern matches (the
anchored matcher is characterized declaratively by `DocShape`), and
`none` when no position of the text matches — in particular a `.pdf`
name not followed by `, Lines <start>-<end>)` yields `none`. -/
theorem c9_document_name_first_match (text : String) :
    (∀ s nm, matchDocAt s = some nm ↔ DocShape s nm) ∧
    (extract_document_name text = none ↔
      ∀ i, i < text.data.length → matchDocAt (text.data.drop i) = none) ∧
    (∀ nm, extract_document_name text = some nm ↔
      ∃ i, i < text.data.length ∧ matchDocAt (text.data.drop i) = some nm ∧
        ∀ j, j < i → matchDocAt (text.data.drop j) = none) :=
  ⟨matchDocAt_eq_some_iff, scanFirst_eq_none_iff matchDocAt text.data,
   fun nm => scanFirst_eq_some_iff matchDocAt text.data nm⟩

/-- Witness for C9: a text with a match at position 2 resolves to the
captured name, and a bare `.pdf` mention without the `, Lines` suffix
resolves to `none`. -/
theorem c9_document_name_first_match_witness :
    extract_document_name "x (a.pdf, Lines 1-2) y" = some "a.pdf" ∧
    extract_document_name "plain a.pdf mention" = none :=
  ⟨((c9_document_name_first_match "x (a.pdf, Lines 1-2) y").2.2 "a.pdf").mpr
      ⟨2, by decide, by decide, by decide⟩,
   (c9_document_name_first_match "plain a.pdf mention").2.1.mpr (by decide)⟩

example : extract_lines "This is (doc.pdf, Lines 5-7)" = [(1, 5), (1, 6), (1, 7)] := by decide
example : extract_lines "Lines 2-3 then Lines 9-9" = [(1, 2), (1, 3), (1, 9)] := by decide
example : extract_lines "Lines 7-3 ok" = [] := by decide
example : extract_lines "no lines here" = [] := by decide
example : extract_document_name "see (doc.pdf, Lines 5-7) there" = some "doc.pdf" := by decide
example : extract_document_name "see doc.pdf, page 2" = none := by decide
example : extract_document_name "(a.pdf.pdf, Lines 1-2)" = some "a.pdf.pdf" := by decide
example : extract_document_name "(.pdf, Lines 1-2)" = none := by decide
